import Mathlib

/-!
Shallow embedding of the Banqi ("dark chess") rules engine of this
repository: the data model (`types.ts`, `constants.ts`), the pure rules
functions (`utils/gameLogic.ts`) and the state-transition logic embedded in
the application controller (`App.tsx`).

Modelling conventions:
* TypeScript numbers used as board coordinates are modelled as `Int`
  (the source compares them against `0`, `ROWS`, `COLS` and subtracts them).
* Piece ids (the strings `piece_${idx}` in the source, one per deal index)
  are modelled by their numeric index `idx : Nat`; the map idx ↦ string is
  injective, so nothing is lost.
* The `Math.random`-driven Fisher-Yates shuffle in `constants.ts` is modelled
  by quantifying over an arbitrary permutation of the fixed raw-piece list.
* The `while` loop of `countObstacles` is modelled by structural recursion on
  a fuel argument that is an upper bound on the number of iterations the
  source loop performs.
-/

inductive PieceType where
  | general
  | advisor
  | elephant
  | chariot
  | horse
  | cannon
  | soldier
  deriving DecidableEq

inductive PlayerColor where
  | red
  | black
  deriving DecidableEq

/-- Position from `types.ts`: integer row/column pair. -/
structure Position where
  r : Int
  c : Int
  deriving DecidableEq

/-- Piece from `types.ts`.  The optional `dying?` flag (absent = falsy) is a
total `Bool` here. -/
structure Piece where
  id : Nat
  type : PieceType
  color : PlayerColor
  position : Position
  revealed : Bool
  dead : Bool
  dying : Bool
  rank : Nat
  deriving DecidableEq

/-- `ROWS` from `constants.ts`. -/
def ROWS : Nat := 4

/-- `COLS` from `constants.ts`. -/
def COLS : Nat := 8

/-- `PIECE_RANKS` from `constants.ts`. -/
def PIECE_RANKS : PieceType → Nat
  | .general => 7
  | .advisor => 6
  | .elephant => 5
  | .chariot => 4
  | .horse => 3
  | .cannon => 2
  | .soldier => 1

/-- `isSamePosition` from `gameLogic.ts`. -/
def isSamePosition (p1 p2 : Position) : Bool :=
  p1.r == p2.r && p1.c == p2.c

/-- `getPieceAt` from `gameLogic.ts`: first piece in the list that is neither
dead nor dying and sits at `pos`. -/
def getPieceAt (pieces : List Piece) (pos : Position) : Option Piece :=
  pieces.find? (fun p => !p.dead && !p.dying && isSamePosition p.position pos)

/-- `canSelectPiece` from `gameLogic.ts`. -/
def canSelectPiece (piece : Piece) (playerColor : Option PlayerColor) : Bool :=
  if piece.revealed = false then false
  else
    match playerColor with
    | none => false
    | some c => decide (piece.color = c)

/-- `isAdjacent` from `gameLogic.ts`: Manhattan distance exactly 1. -/
def isAdjacent (p1 p2 : Position) : Bool :=
  ((p1.r - p2.r).natAbs + (p1.c - p2.c).natAbs) == 1

/-- Body of the `while` loop of `countObstacles` in `gameLogic.ts`.  The loop
walks from `from + (dr,dc)` towards `to` one step at a time, counting cells
occupied by a live piece, and stops when it reaches `to`.  `fuel` bounds the
number of iterations; callers pass a fuel no smaller than the number of steps
from the starting cell to `to`, so the recursion computes exactly what the
source loop computes. -/
def countObstaclesAux (pieces : List Piece) (t : Position) (dr dc : Int) :
    Nat → Int → Int → Nat
  | 0, _, _ => 0
  | fuel + 1, currR, currC =>
    if currR == t.r && currC == t.c then 0
    else
      (if (getPieceAt pieces ⟨currR, currC⟩).isSome then 1 else 0) +
        countObstaclesAux pieces t dr dc fuel (currR + dr) (currC + dc)

/-- `countObstacles` from `gameLogic.ts`: `-1` when the two cells share
neither a row nor a column, otherwise the number of live pieces strictly
between them along the shared line. -/
def countObstacles (pieces : List Piece) (f t : Position) : Int :=
  if f.r ≠ t.r ∧ f.c ≠ t.c then -1
  else
    let dr := (t.r - f.r).sign
    let dc := (t.c - f.c).sign
    let fuel := (t.r - f.r).natAbs + (t.c - f.c).natAbs
    (countObstaclesAux pieces t dr dc fuel (f.r + dr) (f.c + dc) : Int)

/-- `isValidMove` from `gameLogic.ts`. -/
def isValidMove (pieces : List Piece) (piece : Piece) (toPos : Position) : Bool :=
  if toPos.r < 0 ∨ (ROWS : Int) ≤ toPos.r ∨ toPos.c < 0 ∨ (COLS : Int) ≤ toPos.c then false
  else
    let target := getPieceAt pieces toPos
    if piece.type = PieceType.cannon then
      match target with
      | none => isAdjacent piece.position toPos
      | some t =>
        if t.revealed = true ∧ t.color ≠ piece.color then
          if piece.position.r ≠ toPos.r ∧ piece.position.c ≠ toPos.c then false
          else countObstacles pieces piece.position toPos == 1
        else false
    else
      if isAdjacent piece.position toPos = false then false
      else
        match target with
        | none => true
        | some t =>
          if t.revealed = false then false
          else if t.color = piece.color then false
          else if piece.type = PieceType.soldier ∧ t.type = PieceType.general then true
          else if piece.type = PieceType.general ∧ t.type = PieceType.soldier then false
          else decide (t.rank ≤ piece.rank)

/-- `checkHasValidMoves` from `gameLogic.ts`: the `for` loops over rows and
columns are modelled by `List.any` over `List.range`. -/
def checkHasValidMoves (pieces : List Piece) (playerColor : PlayerColor) : Bool :=
  let hasHiddenPieces := pieces.any (fun p => !p.dead && !p.revealed && !p.dying)
  if hasHiddenPieces then true
  else
    let myPieces := pieces.filter
      (fun p => !p.dead && !p.dying && p.revealed && decide (p.color = playerColor))
    myPieces.any (fun piece =>
      (List.range ROWS).any (fun r =>
        (List.range COLS).any (fun c =>
          isValidMove pieces piece ⟨(r : Int), (c : Int)⟩)))

/-- Raw piece record built in `generateNewGamePieces` before an id and a
position are attached (`Omit<Piece, 'position' | 'id'>` in the source, with
`dying` still absent). -/
structure RawPiece where
  type : PieceType
  color : PlayerColor
  revealed : Bool
  dead : Bool
  rank : Nat
  deriving DecidableEq

/-- One raw piece as pushed by the `definitions.forEach` loop in
`constants.ts`. -/
def mkRaw (t : PieceType) (c : PlayerColor) : RawPiece :=
  ⟨t, c, false, false, PIECE_RANKS t⟩

/-- The `definitions` table of `generateNewGamePieces` in `constants.ts`,
expanded by its per-entry `count` into the 32-element raw-piece list that the
source builds before shuffling. -/
def baseRawPieces : List RawPiece :=
  List.replicate 1 (mkRaw .general .red) ++ List.replicate 2 (mkRaw .advisor .red) ++
  List.replicate 2 (mkRaw .elephant .red) ++ List.replicate 2 (mkRaw .chariot .red) ++
  List.replicate 2 (mkRaw .horse .red) ++ List.replicate 2 (mkRaw .cannon .red) ++
  List.replicate 5 (mkRaw .soldier .red) ++
  List.replicate 1 (mkRaw .general .black) ++ List.replicate 2 (mkRaw .advisor .black) ++
  List.replicate 2 (mkRaw .elephant .black) ++ List.replicate 2 (mkRaw .chariot .black) ++
  List.replicate 2 (mkRaw .horse .black) ++ List.replicate 2 (mkRaw .cannon .black) ++
  List.replicate 5 (mkRaw .soldier .black)

/-- Cell receiving the raw piece at deal index `idx`: the nested `for r, for c`
loops of `constants.ts` place index `idx = r * COLS + c` at `(r, c)`. -/
def dealPosition (idx : Nat) : Position :=
  ⟨((idx / COLS : Nat) : Int), ((idx % COLS : Nat) : Int)⟩

/-- Piece built from a deal index and a raw piece (`{...rawPieces[idx],
id: piece_idx, position: {r, c}}` in the source). -/
def dealPiece (e : Nat × RawPiece) : Piece :=
  { id := e.1, type := e.2.type, color := e.2.color, position := dealPosition e.1,
    revealed := e.2.revealed, dead := e.2.dead, dying := false, rank := e.2.rank }

/-- `generateNewGamePieces` from `constants.ts`, parameterised by the result
`shuffledRaw` of the `Math.random` shuffle (an arbitrary permutation of
`baseRawPieces`; theorems quantify over it). -/
def generateNewGamePieces (shuffledRaw : List RawPiece) : List Piece :=
  shuffledRaw.enum.map dealPiece

/-- The 32 board cells in row-major order. -/
def allBoardCells : List Position :=
  (List.range ROWS).flatMap (fun r => (List.range COLS).map (fun c => ⟨(r : Int), (c : Int)⟩))

example : isAdjacent ⟨0, 0⟩ ⟨0, 1⟩ = true := by decide
example : isAdjacent ⟨0, 0⟩ ⟨1, 1⟩ = false := by decide
example : countObstacles [] ⟨0, 0⟩ ⟨0, 3⟩ = 0 := by decide
example : countObstacles [] ⟨0, 0⟩ ⟨1, 3⟩ = -1 := by decide
example : baseRawPieces.length = 32 := by decide
example : (generateNewGamePieces baseRawPieces).length = 32 := by decide
example : allBoardCells.length = 32 := by decide

/-- Game-play state from `App.tsx` (`pieces`, `currentPlayerIndex`,
`playerColors` split into its two entries, `selectedPieceId`, `lastMove`,
`winner`).  Presentation-only state (names, logs, audio, the kill-animation
overlay) is out of scope. -/
structure GameState where
  pieces : List Piece
  currentPlayerIndex : Nat
  color0 : Option PlayerColor
  color1 : Option PlayerColor
  selectedPieceId : Option Nat
  lastMove : Option (Position × Position)
  winner : Option Nat
  deriving DecidableEq

/-- The `piece.color === 'red' ? 'black' : 'red'` expression of `handleFlip`. -/
def oppositeColor : PlayerColor → PlayerColor
  | .red => .black
  | .black => .red

/-- `playerColors[currentPlayerIndex]` (`getCurrentPlayerColor` in `App.tsx`). -/
def currentPlayerColorOf (s : GameState) : Option PlayerColor :=
  if s.currentPlayerIndex = 0 then s.color0 else s.color1

/-- `playerColors[currentPlayerIndex === 0 ? 1 : 0]` in `performBoardUpdate`. -/
def opponentColorOf (s : GameState) : Option PlayerColor :=
  if s.currentPlayerIndex = 0 then s.color1 else s.color0

/-- `setCurrentPlayerIndex(prev => prev === 0 ? 1 : 0)` in `App.tsx`. -/
def advanceSeat (i : Nat) : Nat :=
  if i = 0 then 1 else 0

/-- The piece-list update of `handleFlip`:
`pieces.map(p => p.id === piece.id ? { ...p, revealed: true } : p)`. -/
def flipPieces (pieces : List Piece) (pid : Nat) : List Piece :=
  pieces.map (fun p => if p.id = pid then { p with revealed := true } else p)

/-- `handleFlip` from `App.tsx`: reveal the piece, assign seat colors if the
game's colors are not yet assigned (`playerColors[0] === null`), switch turn. -/
def handleFlip (s : GameState) (piece : Piece) : GameState :=
  let newPieces := flipPieces s.pieces piece.id
  if s.color0 = none then
    { s with pieces := newPieces, color0 := some piece.color,
             color1 := some (oppositeColor piece.color),
             currentPlayerIndex := advanceSeat s.currentPlayerIndex }
  else
    { s with pieces := newPieces, currentPlayerIndex := advanceSeat s.currentPlayerIndex }

/-- The piece-list update of `performBoardUpdate` in `App.tsx`: the mover is
relocated to `toPos`, the capture target (when present) is flagged `dying`. -/
def applyMovePieces (pieces : List Piece) (piece : Piece) (toPos : Position)
    (targetPiece : Option Piece) : List Piece :=
  pieces.map (fun p =>
    if p.id = piece.id then { p with position := toPos }
    else if targetPiece.any (fun t => p.id == t.id) then { p with dying := true }
    else p)

/-- `performBoardUpdate` from `App.tsx`: apply the piece-list update, record
`lastMove`, clear the selection, then check the elimination win condition —
if the opposing seat's color is assigned and has no live piece left the mover
wins and the turn is not advanced; otherwise the active seat alternates. -/
def performBoardUpdate (s : GameState) (piece : Piece) (toPos : Position)
    (targetPiece : Option Piece) : GameState :=
  let newPieces := applyMovePieces s.pieces piece toPos targetPiece
  let sMoved : GameState :=
    { s with pieces := newPieces, lastMove := some (piece.position, toPos),
             selectedPieceId := none }
  match opponentColorOf s with
  | some oc =>
    if (newPieces.filter (fun p => decide (p.color = oc) && !p.dead && !p.dying)).length = 0 then
      { sMoved with winner := some s.currentPlayerIndex }
    else
      { sMoved with currentPlayerIndex := advanceSeat s.currentPlayerIndex }
  | none => { sMoved with currentPlayerIndex := advanceSeat s.currentPlayerIndex }

/-- The delayed cleanup in `performBoardUpdate` that finalizes a capture:
`p.id === targetPiece.id ? { ...p, dead: true, dying: false } : p`. -/
def finalizeDead (pieces : List Piece) (tid : Nat) : List Piece :=
  pieces.map (fun p => if p.id = tid then { p with dead := true, dying := false } else p)

/-- `executeMove` from `App.tsx`, with the presentation-layer animation delay
elided: the capture target is looked up exactly as in the source
(`pieces.find(p => !p.dead && !p.dying && p.position.r === to.r &&
p.position.c === to.c)`, i.e. `getPieceAt`) and the board update is applied. -/
def executeMove (s : GameState) (piece : Piece) (toPos : Position) : GameState :=
  performBoardUpdate s piece toPos (getPieceAt s.pieces toPos)

/-- Case 3 of `handleSquareClick` in `App.tsx` (move the selected piece). -/
def tryMoveSelected (s : GameState) (pos : Position) : GameState :=
  match s.selectedPieceId with
  | none => s
  | some sid =>
    match s.pieces.find? (fun p => p.id == sid) with
    | none => s
    | some sp =>
      if isValidMove s.pieces sp pos then executeMove s sp pos
      else { s with selectedPieceId := none }

/-- `handleSquareClick` from `App.tsx`: input is ignored once a winner is set;
a click on a live hidden piece clears the selection and flips it (case 1); a
click on a live revealed piece of the active seat's color selects it (case 2);
otherwise the click is treated as a move attempt of the selected piece
(case 3). -/
def handleSquareClick (s : GameState) (pos : Position) : GameState :=
  if s.winner ≠ none then s
  else
    match getPieceAt s.pieces pos with
    | some cp =>
      if cp.revealed = false then handleFlip { s with selectedPieceId := none } cp
      else if currentPlayerColorOf s = some cp.color then { s with selectedPieceId := some cp.id }
      else tryMoveSelected s pos
    | none => tryMoveSelected s pos

/-- Initial game-play state of `App.tsx` (fresh deal, seat 0 to act, no color
assignment, nothing selected, no winner). -/
def initGameState (raw : List RawPiece) : GameState :=
  { pieces := generateNewGamePieces raw, currentPlayerIndex := 0, color0 := none,
    color1 := none, selectedPieceId := none, lastMove := none, winner := none }

/-- `!p.dead && !p.dying`: the piece still occupies its square. -/
def pieceLive (p : Piece) : Bool :=
  !p.dead && !p.dying

/-- At most one live piece per cell: any two list entries that are both live
and share a position carry the same id. -/
def uniqueOccupancy (pieces : List Piece) : Prop :=
  ∀ p1 ∈ pieces, ∀ p2 ∈ pieces,
    pieceLive p1 = true → pieceLive p2 = true → p1.position = p2.position → p1.id = p2.id

theorem isSamePosition_iff (a b : Position) : isSamePosition a b = true ↔ a = b := by
  cases a; cases b; simp [isSamePosition, Position.mk.injEq]

theorem isAdjacent_iff (a b : Position) :
    isAdjacent a b = true ↔ (a.r - b.r).natAbs + (a.c - b.c).natAbs = 1 := by
  simp [isAdjacent]

/-- C1: for a live, revealed non-cannon piece and an in-bounds target,
`isValidMove` holds iff the target is orthogonally adjacent (Manhattan
distance exactly 1) and either no live piece occupies the target, or the
target holds a live revealed piece of the opposing color whose rank the
attacker's rank meets (`attacker.rank >= target.rank`), with the two hard
overrides: soldier beats general, general never beats soldier. -/
theorem isValidMove_nonCannon_iff (pieces : List Piece) (p : Piece) (toPos : Position)
    (hdead : p.dead = false) (hdying : p.dying = false) (hrev : p.revealed = true)
    (htype : p.type ≠ PieceType.cannon)
    (hr0 : 0 ≤ toPos.r) (hr1 : toPos.r < (ROWS : Int))
    (hc0 : 0 ≤ toPos.c) (hc1 : toPos.c < (COLS : Int)) :
    isValidMove pieces p toPos = true ↔
      ((p.position.r - toPos.r).natAbs + (p.position.c - toPos.c).natAbs = 1 ∧
        (getPieceAt pieces toPos = none ∨
          ∃ t, getPieceAt pieces toPos = some t ∧ t.revealed = true ∧ t.color ≠ p.color ∧
            ((p.type = PieceType.soldier ∧ t.type = PieceType.general) ∨
              (¬(p.type = PieceType.general ∧ t.type = PieceType.soldier) ∧
                t.rank ≤ p.rank)))) := by
  have hbounds : ¬(toPos.r < 0 ∨ (ROWS : Int) ≤ toPos.r ∨ toPos.c < 0 ∨ (COLS : Int) ≤ toPos.c) := by
    push_neg
    exact ⟨hr0, hr1, hc0, hc1⟩
  rw [isValidMove, if_neg hbounds]
  simp only [if_neg htype]
  have hadj := isAdjacent_iff p.position toPos
  cases hg : getPieceAt pieces toPos with
  | none =>
    cases hb : isAdjacent p.position toPos with
    | false =>
      rw [hb] at hadj
      simp only [Bool.false_eq_true, false_iff] at hadj
      simp [hg, hb]
      tauto
    | true =>
      rw [hb] at hadj
      simp only [true_iff] at hadj
      simp [hg, hb, hadj]
  | some t =>
    cases hb : isAdjacent p.position toPos with
    | false =>
      rw [hb] at hadj
      simp only [Bool.false_eq_true, false_iff] at hadj
      simp [hg, hb]
      tauto
    | true =>
      rw [hb] at hadj
      simp only [true_iff] at hadj
      by_cases htr : t.revealed = true
      swap
      · rw [Bool.not_eq_true] at htr
        simp [hg, hb, htr]
      by_cases htc : t.color = p.color
      · simp [hg, hb, htr, htc]
      by_cases hsg : p.type = PieceType.soldier ∧ t.type = PieceType.general
      · simp [hg, hb, htr, htc, hsg, hadj]
      by_cases hgs : p.type = PieceType.general ∧ t.type = PieceType.soldier
      · simp [hg, hb, htr, htc, hsg, hgs, hadj]
      · simp [hg, hb, htr, htc, hsg, hgs, hadj]
        tauto

/-- Cells of a straight walk: `s`, `s+(dr,dc)`, …, `m` cells in total. -/
def cellsFrom (s : Position) (dr dc : Int) : Nat → List Position
  | 0 => []
  | m + 1 => s :: cellsFrom ⟨s.r + dr, s.c + dc⟩ dr dc m

/-- The cells strictly between `f` and `t` along their shared row or column
(meaningful when `f` and `t` are colinear). -/
def strictlyBetweenCells (f t : Position) : List Position :=
  cellsFrom ⟨f.r + (t.r - f.r).sign, f.c + (t.c - f.c).sign⟩
    (t.r - f.r).sign (t.c - f.c).sign
    ((t.r - f.r).natAbs + (t.c - f.c).natAbs - 1)

/-- Number of live pieces on the cells strictly between `f` and `t`, hidden
and revealed pieces alike. -/
def betweenLiveCount (pieces : List Piece) (f t : Position) : Nat :=
  (strictlyBetweenCells f t).countP (fun q => (getPieceAt pieces q).isSome)

theorem countObstaclesAux_spec (pieces : List Piece) (t : Position) (dr dc : Int)
    (hd : ((dr = 1 ∨ dr = -1) ∧ dc = 0) ∨ (dr = 0 ∧ (dc = 1 ∨ dc = -1))) :
    ∀ (m fuel : Nat) (s : Position), m ≤ fuel →
      t.r = s.r + m * dr → t.c = s.c + m * dc →
      countObstaclesAux pieces t dr dc fuel s.r s.c =
        (cellsFrom s dr dc m).countP (fun q => (getPieceAt pieces q).isSome) := by
  intro m
  induction m with
  | zero =>
    intro fuel s hle hr hc
    simp only [Nat.cast_zero, zero_mul, add_zero] at hr hc
    cases fuel with
    | zero => simp [countObstaclesAux, cellsFrom]
    | succ k =>
      simp [countObstaclesAux, cellsFrom, hr, hc]
  | succ n ih =>
    intro fuel s hle hr hc
    cases fuel with
    | zero => omega
    | succ k =>
      have hne : (s.r == t.r && s.c == t.c) = false := by
        rcases hd with ⟨hdr, hdc⟩ | ⟨hdr, hdc⟩
        · have : s.r ≠ t.r := by
            rcases hdr with h1 | h1 <;> rw [h1] at hr <;> omega
          simp [this]
        · have : s.c ≠ t.c := by
            rcases hdc with h1 | h1 <;> rw [h1] at hc <;> omega
          simp [this]
      rw [countObstaclesAux, hne]
      simp only [Bool.false_eq_true, if_false]
      have hstep := ih k ⟨s.r + dr, s.c + dc⟩ (by omega)
        (by simp only []; push_cast at hr ⊢; linarith)
        (by simp only []; push_cast at hc ⊢; linarith)
      rw [hstep, cellsFrom, List.countP_cons]
      have hs : (⟨s.r, s.c⟩ : Position) = s := rfl
      rw [hs]
      omega

theorem int_sign_cases (a : Int) (h : a ≠ 0) : a.sign = 1 ∨ a.sign = -1 := by
  rcases lt_trichotomy a 0 with h1 | h1 | h1
  · exact Or.inr (Int.sign_eq_neg_one_of_neg h1)
  · exact absurd h1 h
  · exact Or.inl (Int.sign_eq_one_of_pos h1)

/-- When `f` and `t` share a row or a column, `countObstacles` computes the
number of live pieces on the cells strictly between them. -/
theorem countObstacles_colinear (pieces : List Piece) (f t : Position)
    (hlin : f.r = t.r ∨ f.c = t.c) :
    countObstacles pieces f t = (betweenLiveCount pieces f t : Int) := by
  have hguard : ¬(f.r ≠ t.r ∧ f.c ≠ t.c) := by tauto
  by_cases hr : f.r = t.r
  · by_cases hc : f.c = t.c
    · have e1 : t.r - f.r = 0 := by omega
      have e2 : t.c - f.c = 0 := by omega
      rw [countObstacles, if_neg hguard]
      simp [e1, e2, betweenLiveCount, strictlyBetweenCells, cellsFrom, countObstaclesAux]
    · have hsub : t.c - f.c ≠ 0 := by omega
      have hn : 0 < (t.c - f.c).natAbs := Int.natAbs_pos.mpr hsub
      have e1 : t.r - f.r = 0 := by omega
      have hdr : (t.r - f.r).sign = 0 := by rw [e1, Int.sign_zero]
      have hr0 : (t.r - f.r).natAbs = 0 := by rw [e1]; rfl
      have hdc := int_sign_cases _ hsub
      have hkey : (t.c - f.c).sign * ((t.c - f.c).natAbs : Int) = t.c - f.c :=
        Int.sign_mul_natAbs _
      have hspec := countObstaclesAux_spec pieces t ((t.r - f.r).sign) ((t.c - f.c).sign)
          (Or.inr ⟨hdr, hdc⟩)
          ((t.r - f.r).natAbs + (t.c - f.c).natAbs - 1)
          ((t.r - f.r).natAbs + (t.c - f.c).natAbs)
          ⟨f.r + (t.r - f.r).sign, f.c + (t.c - f.c).sign⟩ (by omega) ?_ ?_
      · rw [countObstacles, if_neg hguard]
        dsimp only at hspec
        simp only [hspec, betweenLiveCount, strictlyBetweenCells]
      · dsimp only
        rw [hdr]
        simp only [mul_zero, add_zero]
        omega
      · dsimp only
        rw [hr0]
        simp only [Nat.zero_add, zero_add]
        rw [Nat.cast_sub hn]
        push_cast at hkey ⊢
        linear_combination -hkey
  · have hc : f.c = t.c := by tauto
    have hsub : t.r - f.r ≠ 0 := by omega
    have hn : 0 < (t.r - f.r).natAbs := Int.natAbs_pos.mpr hsub
    have e2 : t.c - f.c = 0 := by omega
    have hdc : (t.c - f.c).sign = 0 := by rw [e2, Int.sign_zero]
    have hc0 : (t.c - f.c).natAbs = 0 := by rw [e2]; rfl
    have hdr := int_sign_cases _ hsub
    have hkey : (t.r - f.r).sign * ((t.r - f.r).natAbs : Int) = t.r - f.r :=
      Int.sign_mul_natAbs _
    have hspec := countObstaclesAux_spec pieces t ((t.r - f.r).sign) ((t.c - f.c).sign)
        (Or.inl ⟨hdr, hdc⟩)
        ((t.r - f.r).natAbs + (t.c - f.c).natAbs - 1)
        ((t.r - f.r).natAbs + (t.c - f.c).natAbs)
        ⟨f.r + (t.r - f.r).sign, f.c + (t.c - f.c).sign⟩ (by omega) ?_ ?_
    · rw [countObstacles, if_neg hguard]
      dsimp only at hspec
      simp only [hspec, betweenLiveCount, strictlyBetweenCells]
    · dsimp only
      rw [hc0]
      simp only [Nat.add_zero, add_zero]
      rw [Nat.cast_sub hn]
      push_cast at hkey ⊢
      linear_combination -hkey
    · dsimp only
      rw [hdc]
      simp only [mul_zero, add_zero]
      omega

/-- Orthogonally adjacent cells have no cell strictly between them, so
`countObstacles` is `0` there. -/
theorem countObstacles_adjacent (pieces : List Piece) (f t : Position)
    (h : (f.r - t.r).natAbs + (f.c - t.c).natAbs = 1) :
    countObstacles pieces f t = 0 := by
  have hra : (t.r - f.r).natAbs = (f.r - t.r).natAbs := by
    rw [← Int.natAbs_neg, neg_sub]
  have hca : (t.c - f.c).natAbs = (f.c - t.c).natAbs := by
    rw [← Int.natAbs_neg, neg_sub]
  have hlin : f.r = t.r ∨ f.c = t.c := by
    rcases Nat.add_eq_one_iff.mp h with ⟨h1, _⟩ | ⟨_, h2⟩
    · exact Or.inl (by have := Int.natAbs_eq_zero.mp h1; omega)
    · exact Or.inr (by have := Int.natAbs_eq_zero.mp h2; omega)
  rw [countObstacles_colinear pieces f t hlin]
  have hm : (t.r - f.r).natAbs + (t.c - f.c).natAbs = 1 := by rw [hra, hca]; exact h
  unfold betweenLiveCount strictlyBetweenCells
  rw [hm]
  simp [cellsFrom]

/-- C2: for a live cannon and an in-bounds target, `isValidMove` holds iff
either the target is empty and orthogonally adjacent (plain move), or the
target holds a live revealed piece of the opposing color, shares a row or
column with the cannon, and exactly one live piece (hidden or revealed, of
either color) lies strictly between them.  In particular a cannon never
captures a hidden piece, and zero or two-or-more screens make the capture
illegal. -/
theorem isValidMove_cannon_iff (pieces : List Piece) (p : Piece) (toPos : Position)
    (hdead : p.dead = false) (hdying : p.dying = false)
    (htype : p.type = PieceType.cannon)
    (hr0 : 0 ≤ toPos.r) (hr1 : toPos.r < (ROWS : Int))
    (hc0 : 0 ≤ toPos.c) (hc1 : toPos.c < (COLS : Int)) :
    isValidMove pieces p toPos = true ↔
      ((getPieceAt pieces toPos = none ∧
          (p.position.r - toPos.r).natAbs + (p.position.c - toPos.c).natAbs = 1) ∨
        (∃ t, getPieceAt pieces toPos = some t ∧ t.revealed = true ∧ t.color ≠ p.color ∧
          (p.position.r = toPos.r ∨ p.position.c = toPos.c) ∧
          betweenLiveCount pieces p.position toPos = 1)) := by
  have hbounds : ¬(toPos.r < 0 ∨ (ROWS : Int) ≤ toPos.r ∨ toPos.c < 0 ∨ (COLS : Int) ≤ toPos.c) := by
    push_neg
    exact ⟨hr0, hr1, hc0, hc1⟩
  rw [isValidMove, if_neg hbounds]
  simp only [if_pos htype]
  cases hg : getPieceAt pieces toPos with
  | none =>
    simp [hg, isAdjacent_iff]
  | some t =>
    by_cases hrv : t.revealed = true ∧ t.color ≠ p.color
    · by_cases hlin' : p.position.r ≠ toPos.r ∧ p.position.c ≠ toPos.c
      · simp [hg, hrv, hlin']
      · have hlin : p.position.r = toPos.r ∨ p.position.c = toPos.c := by tauto
        dsimp only
        simp only [if_pos hrv, if_neg hlin']
        rw [countObstacles_colinear pieces p.position toPos hlin]
        have hcast : ((betweenLiveCount pieces p.position toPos : Int) == (1 : Int)) = true ↔
            betweenLiveCount pieces p.position toPos = 1 := by
          rw [beq_iff_eq]
          exact_mod_cast Iff.rfl
        rw [hcast]
        simp [hrv.1, hrv.2, hlin]
    · simp [hg, hrv]
      tauto

/-- C10: a cannon can never capture an orthogonally adjacent piece — at
Manhattan distance 1 there is no cell strictly between mover and target, so
the exactly-one-screen requirement cannot hold and `isValidMove` is false
whenever the adjacent target cell is occupied by a live piece. -/
theorem cannon_cannot_capture_adjacent (pieces : List Piece) (p : Piece) (toPos : Position)
    (hdead : p.dead = false) (hdying : p.dying = false)
    (htype : p.type = PieceType.cannon)
    (hadj : (p.position.r - toPos.r).natAbs + (p.position.c - toPos.c).natAbs = 1)
    (hocc : (getPieceAt pieces toPos).isSome = true) :
    isValidMove pieces p toPos = false := by
  rw [isValidMove]
  by_cases hb : toPos.r < 0 ∨ (ROWS : Int) ≤ toPos.r ∨ toPos.c < 0 ∨ (COLS : Int) ≤ toPos.c
  · rw [if_pos hb]
  · rw [if_neg hb]
    obtain ⟨t, hg⟩ := Option.isSome_iff_exists.mp hocc
    simp only [hg, if_pos htype]
    by_cases hrv : t.revealed = true ∧ t.color ≠ p.color
    · rw [if_pos hrv]
      have hnl : ¬(p.position.r ≠ toPos.r ∧ p.position.c ≠ toPos.c) := by
        rcases Nat.add_eq_one_iff.mp hadj with ⟨h1, _⟩ | ⟨_, h2⟩
        · have := Int.natAbs_eq_zero.mp h1
          intro hcon
          exact hcon.1 (by omega)
        · have := Int.natAbs_eq_zero.mp h2
          intro hcon
          exact hcon.2 (by omega)
      rw [if_neg hnl, countObstacles_adjacent pieces p.position toPos hadj]
      decide
    · rw [if_neg hrv]

/-- C3: `checkHasValidMoves` returns true precisely when some piece on the
board is still hidden (a flip is available, regardless of the piece's color),
or some live revealed piece of the given color has a target among the 32
board cells that `isValidMove` accepts; it is false exactly when the color
has no legal flip and no legal move. -/
theorem checkHasValidMoves_iff (pieces : List Piece) (col : PlayerColor) :
    checkHasValidMoves pieces col = true ↔
      ((∃ p ∈ pieces, p.dead = false ∧ p.dying = false ∧ p.revealed = false) ∨
        (∃ p ∈ pieces, p.dead = false ∧ p.dying = false ∧ p.revealed = true ∧ p.color = col ∧
          ∃ r, r < ROWS ∧ ∃ c, c < COLS ∧
            isValidMove pieces p ⟨(r : Int), (c : Int)⟩ = true)) := by
  rw [checkHasValidMoves]
  by_cases hh : pieces.any (fun p => !p.dead && !p.revealed && !p.dying) = true
  · rw [if_pos hh]
    simp only [List.any_eq_true, Bool.and_eq_true, Bool.not_eq_true'] at hh
    obtain ⟨p, hp, ⟨hd, hrev⟩, hdy⟩ := hh
    constructor
    · intro _
      exact Or.inl ⟨p, hp, hd, hdy, hrev⟩
    · intro _
      rfl
  · rw [if_neg hh]
    simp only [List.any_eq_true, List.mem_filter, List.mem_range, Bool.and_eq_true,
      Bool.not_eq_true', decide_eq_true_eq, not_exists, not_and] at hh ⊢
    constructor
    · rintro ⟨p, ⟨hp, ⟨⟨⟨hd, hdy⟩, hrev⟩, hcol⟩⟩, r, hr, c, hc, hv⟩
      exact Or.inr ⟨p, hp, hd, hdy, hrev, hcol, r, hr, c, hc, hv⟩
    · rintro (⟨p, hp, hd, hdy, hrev⟩ | ⟨p, hp, hd, hdy, hrev, hcol, r, hr, c, hc, hv⟩)
      · exact absurd hdy (hh p hp ⟨hd, hrev⟩)
      · exact ⟨p, ⟨hp, ⟨⟨⟨hd, hdy⟩, hrev⟩, hcol⟩⟩, r, hr, c, hc, hv⟩

/-- C4: when the completed move leaves the opposing color with zero live
pieces, `performBoardUpdate` declares the moving seat the winner and does not
advance the active seat, so the turn is not passed on a winning move. -/
theorem performBoardUpdate_elimination_win (s : GameState) (piece : Piece) (toPos : Position)
    (targetPiece : Option Piece) (oc : PlayerColor)
    (hoc : opponentColorOf s = some oc)
    (hnone : ((applyMovePieces s.pieces piece toPos targetPiece).filter
        (fun p => decide (p.color = oc) && !p.dead && !p.dying)).length = 0) :
    (performBoardUpdate s piece toPos targetPiece).winner = some s.currentPlayerIndex ∧
      (performBoardUpdate s piece toPos targetPiece).currentPlayerIndex =
        s.currentPlayerIndex := by
  constructor <;> simp [performBoardUpdate, hoc, hnone]

/-- C7: both seat colors start unassigned; the first flip (taken while
`color0` is still unassigned) gives seat 0 the flipped piece's color and
seat 1 the opposite color; any later flip leaves both assignments unchanged,
and a move never touches them. -/
theorem seat_color_assignment :
    (∀ raw, (initGameState raw).color0 = none ∧ (initGameState raw).color1 = none) ∧
    (∀ s piece, s.color0 = none →
        (handleFlip s piece).color0 = some piece.color ∧
        (handleFlip s piece).color1 = some (oppositeColor piece.color)) ∧
    (∀ s piece c0, s.color0 = some c0 →
        (handleFlip s piece).color0 = some c0 ∧
        (handleFlip s piece).color1 = s.color1) ∧
    (∀ s piece toPos targetPiece,
        (performBoardUpdate s piece toPos targetPiece).color0 = s.color0 ∧
        (performBoardUpdate s piece toPos targetPiece).color1 = s.color1) := by
  refine ⟨?_, ?_, ?_, ?_⟩
  · intro raw
    exact ⟨rfl, rfl⟩
  · intro s piece h
    simp [handleFlip, h]
  · intro s piece c0 h
    have hne : ¬s.color0 = none := by simp [h]
    simp [handleFlip, hne, h]
  · intro s piece toPos targetPiece
    cases hoc : opponentColorOf s with
    | none => simp [performBoardUpdate, hoc]
    | some oc =>
      simp only [performBoardUpdate, hoc]
      split <;> exact ⟨rfl, rfl⟩

/-- Frame relation of a flip: every field of every piece is unchanged except
that the piece carrying the flipped id has `revealed` set to `true`. -/
def flipFrame (pid : Nat) (q q' : Piece) : Prop :=
  q'.id = q.id ∧ q'.type = q.type ∧ q'.color = q.color ∧ q'.position = q.position ∧
  q'.dead = q.dead ∧ q'.dying = q.dying ∧ q'.rank = q.rank ∧
  (q.id = pid → q'.revealed = true) ∧ (q.id ≠ pid → q'.revealed = q.revealed)

theorem flipPieces_frame (pieces : List Piece) (pid : Nat) :
    List.Forall₂ (flipFrame pid) pieces (flipPieces pieces pid) := by
  rw [flipPieces, List.forall₂_map_right_iff, List.forall₂_same]
  intro a _
  by_cases h : a.id = pid <;> simp [flipFrame, h]

theorem pieces_eq_of_same_id (pieces : List Piece) (hids : (pieces.map (fun p => p.id)).Nodup)
    (p q : Piece) (hp : p ∈ pieces) (hq : q ∈ pieces) (h : p.id = q.id) : p = q :=
  List.inj_on_of_nodup_map hids hp hq h

/-- C6: a click flips precisely when the target cell holds a live hidden
piece — on a board with unique occupancy and distinct ids, `getPieceAt`
finds a hidden piece at the cell iff a live hidden piece sits there — and a
successful flip sets exactly that piece's `revealed` flag to `true`,
changing no other field of any piece. -/
theorem flip_legal_iff_and_frame :
    (∀ (s : GameState) (pos : Position) (p : Piece), s.winner = none →
        getPieceAt s.pieces pos = some p → p.revealed = false →
        (handleSquareClick s pos).pieces = flipPieces s.pieces p.id ∧
          List.Forall₂ (flipFrame p.id) s.pieces (flipPieces s.pieces p.id)) ∧
    (∀ (pieces : List Piece) (pos : Position), uniqueOccupancy pieces →
        (pieces.map (fun p => p.id)).Nodup →
        ((∃ p, getPieceAt pieces pos = some p ∧ p.revealed = false) ↔
          (∃ p ∈ pieces, pieceLive p = true ∧ p.position = pos ∧ p.revealed = false))) := by
  constructor
  · intro s pos p hw hg hrev
    refine ⟨?_, flipPieces_frame s.pieces p.id⟩
    rw [handleSquareClick, if_neg (by simp [hw])]
    simp only [hg]
    rw [if_pos hrev, handleFlip]
    split <;> rfl
  · intro pieces pos hu hids
    constructor
    · rintro ⟨p, hg, hrev⟩
      have hmem : p ∈ pieces := List.mem_of_find?_eq_some hg
      have hpred := List.find?_some hg
      simp only [Bool.and_eq_true, Bool.not_eq_true'] at hpred
      obtain ⟨⟨hd, hdy⟩, hsp⟩ := hpred
      exact ⟨p, hmem, by simp [pieceLive, hd, hdy],
        (isSamePosition_iff p.position pos).mp hsp, hrev⟩
    · rintro ⟨q, hq, hlive, hqpos, hqrev⟩
      have hqd : q.dead = false ∧ q.dying = false := by
        simp only [pieceLive, Bool.and_eq_true, Bool.not_eq_true'] at hlive
        exact hlive
      have hsome : (getPieceAt pieces pos).isSome = true := by
        rw [getPieceAt, List.find?_isSome]
        refine ⟨q, hq, ?_⟩
        simp [hqd.1, hqd.2, (isSamePosition_iff q.position pos).mpr hqpos]
      obtain ⟨p, hg⟩ := Option.isSome_iff_exists.mp hsome
      have hmem : p ∈ pieces := List.mem_of_find?_eq_some hg
      have hpred := List.find?_some hg
      simp only [Bool.and_eq_true, Bool.not_eq_true'] at hpred
      obtain ⟨⟨hd, hdy⟩, hsp⟩ := hpred
      have hple : pieceLive p = true := by simp [pieceLive, hd, hdy]
      have hid : p.id = q.id :=
        hu p hmem q hq hple hlive
          (((isSamePosition_iff p.position pos).mp hsp).trans hqpos.symm)
      have : p = q := pieces_eq_of_same_id pieces hids p q hmem hq hid
      exact ⟨p, hg, this ▸ hqrev⟩

/-- C8: rejected actions never mutate board state.  A candidate move that
fails `isValidMove` only clears the selection: pieces, active seat, seat
colors and winner are untouched (whether the click landed on an empty cell or
on a revealed piece that is not selectable).  A click that is not a legal
flip — the cell holds no live piece, or holds a revealed one — with no
pending selection likewise leaves pieces, active seat, seat colors and
winner unchanged.  (`isValidMove` itself is a pure function of its inputs.) -/
theorem rejection_preserves_state :
    (∀ (s : GameState) (pos : Position) (sid : Nat) (sp : Piece), s.winner = none →
        getPieceAt s.pieces pos = none → s.selectedPieceId = some sid →
        s.pieces.find? (fun p => p.id == sid) = some sp →
        isValidMove s.pieces sp pos = false →
        (handleSquareClick s pos).pieces = s.pieces ∧
          (handleSquareClick s pos).currentPlayerIndex = s.currentPlayerIndex ∧
          (handleSquareClick s pos).color0 = s.color0 ∧
          (handleSquareClick s pos).color1 = s.color1 ∧
          (handleSquareClick s pos).winner = s.winner) ∧
    (∀ (s : GameState) (pos : Position) (cp : Piece) (sid : Nat) (sp : Piece),
        s.winner = none →
        getPieceAt s.pieces pos = some cp → cp.revealed = true →
        ¬currentPlayerColorOf s = some cp.color → s.selectedPieceId = some sid →
        s.pieces.find? (fun p => p.id == sid) = some sp →
        isValidMove s.pieces sp pos = false →
        (handleSquareClick s pos).pieces = s.pieces ∧
          (handleSquareClick s pos).currentPlayerIndex = s.currentPlayerIndex ∧
          (handleSquareClick s pos).color0 = s.color0 ∧
          (handleSquareClick s pos).color1 = s.color1 ∧
          (handleSquareClick s pos).winner = s.winner) ∧
    (∀ (s : GameState) (pos : Position), s.winner = none → s.selectedPieceId = none →
        (getPieceAt s.pieces pos = none ∨
          ∃ cp, getPieceAt s.pieces pos = some cp ∧ cp.revealed = true) →
        (handleSquareClick s pos).pieces = s.pieces ∧
          (handleSquareClick s pos).currentPlayerIndex = s.currentPlayerIndex ∧
          (handleSquareClick s pos).color0 = s.color0 ∧
          (handleSquareClick s pos).color1 = s.color1 ∧
          (handleSquareClick s pos).winner = s.winner) := by
  refine ⟨?_, ?_, ?_⟩
  · intro s pos sid sp hw hg hsel hfind hv
    have hres : handleSquareClick s pos = { s with selectedPieceId := none } := by
      rw [handleSquareClick, if_neg (by simp [hw])]
      simp only [hg]
      rw [tryMoveSelected]
      simp only [hsel, hfind]
      rw [if_neg (by simp [hv])]
    rw [hres]
    exact ⟨rfl, rfl, rfl, rfl, rfl⟩
  · intro s pos cp sid sp hw hg hrev hnotmine hsel hfind hv
    have hrev' : ¬cp.revealed = false := by simp [hrev]
    have hres : handleSquareClick s pos = { s with selectedPieceId := none } := by
      rw [handleSquareClick, if_neg (by simp [hw])]
      simp only [hg]
      rw [if_neg hrev', if_neg hnotmine, tryMoveSelected]
      simp only [hsel, hfind]
      rw [if_neg (by simp [hv])]
    rw [hres]
    exact ⟨rfl, rfl, rfl, rfl, rfl⟩
  · intro s pos hw hsel hcases
    rcases hcases with hg | ⟨cp, hg, hrev⟩
    · have hres : handleSquareClick s pos = s := by
        rw [handleSquareClick, if_neg (by simp [hw])]
        simp only [hg]
        rw [tryMoveSelected]
        simp only [hsel]
      rw [hres]
      exact ⟨rfl, rfl, rfl, rfl, rfl⟩
    · have hrev' : ¬cp.revealed = false := by simp [hrev]
      by_cases hmine : currentPlayerColorOf s = some cp.color
      · have hres : handleSquareClick s pos = { s with selectedPieceId := some cp.id } := by
          rw [handleSquareClick, if_neg (by simp [hw])]
          simp only [hg]
          rw [if_neg hrev', if_pos hmine]
        rw [hres]
        exact ⟨rfl, rfl, rfl, rfl, rfl⟩
      · have hres : handleSquareClick s pos = s := by
          rw [handleSquareClick, if_neg (by simp [hw])]
          simp only [hg]
          rw [if_neg hrev', if_neg hmine, tryMoveSelected]
          simp only [hsel]
        rw [hres]
        exact ⟨rfl, rfl, rfl, rfl, rfl⟩

theorem getPieceAt_mem_live (pieces : List Piece) (pos : Position) (t : Piece)
    (h : getPieceAt pieces pos = some t) :
    t ∈ pieces ∧ pieceLive t = true ∧ t.position = pos := by
  have hmem := List.mem_of_find?_eq_some h
  have hpred := List.find?_some h
  simp only [Bool.and_eq_true, Bool.not_eq_true'] at hpred
  obtain ⟨⟨hd, hdy⟩, hsp⟩ := hpred
  exact ⟨hmem, by simp [pieceLive, hd, hdy], (isSamePosition_iff _ _).mp hsp⟩

theorem getPieceAt_isSome_of (pieces : List Piece) (pos : Position) (q : Piece)
    (hq : q ∈ pieces) (hlive : pieceLive q = true) (hpos : q.position = pos) :
    (getPieceAt pieces pos).isSome = true := by
  rw [getPieceAt, List.find?_isSome]
  have hqd : q.dead = false ∧ q.dying = false := by
    simp only [pieceLive, Bool.and_eq_true, Bool.not_eq_true'] at hlive
    exact hlive
  exact ⟨q, hq, by simp [hqd.1, hqd.2, (isSamePosition_iff q.position pos).mpr hpos]⟩

theorem map_id_of_pointwise (pieces : List Piece) (g : Piece → Piece)
    (h : ∀ p, (g p).id = p.id) :
    (pieces.map g).map (fun p => p.id) = pieces.map (fun p => p.id) := by
  have hfun : ((fun p : Piece => p.id) ∘ g) = (fun p : Piece => p.id) := funext h
  rw [List.map_map, hfun]

theorem uniqueOccupancy_map (pieces : List Piece) (g : Piece → Piece)
    (hid : ∀ p, (g p).id = p.id) (hpos : ∀ p, (g p).position = p.position)
    (hlive : ∀ p, pieceLive (g p) = true → pieceLive p = true)
    (hu : uniqueOccupancy pieces) : uniqueOccupancy (pieces.map g) := by
  intro q1 hq1 q2 hq2 hl1 hl2 hpos12
  obtain ⟨p1, hp1, rfl⟩ := List.mem_map.mp hq1
  obtain ⟨p2, hp2, rfl⟩ := List.mem_map.mp hq2
  rw [hid p1, hid p2]
  exact hu p1 hp1 p2 hp2 (hlive _ hl1) (hlive _ hl2)
    (by rw [← hpos p1, ← hpos p2]; exact hpos12)

theorem dealPosition_inj (i j : Nat) (h : dealPosition i = dealPosition j) : i = j := by
  rw [dealPosition, dealPosition, Position.mk.injEq] at h
  obtain ⟨h1, h2⟩ := h
  have h1' : i / COLS = j / COLS := by exact_mod_cast h1
  have h2' : i % COLS = j % COLS := by exact_mod_cast h2
  rw [show COLS = 8 from rfl] at h1' h2'
  omega

theorem applyMove_uniqueOccupancy (pieces : List Piece) (piece : Piece) (toPos : Position)
    (hu : uniqueOccupancy pieces) :
    uniqueOccupancy (applyMovePieces pieces piece toPos (getPieceAt pieces toPos)) := by
  intro q1 hq1 q2 hq2 hl1 hl2 hpos
  rw [applyMovePieces] at hq1 hq2
  obtain ⟨p1, hp1, rfl⟩ := List.mem_map.mp hq1
  obtain ⟨p2, hp2, rfl⟩ := List.mem_map.mp hq2
  by_cases h1 : p1.id = piece.id
  · by_cases h2 : p2.id = piece.id
    · simp only [if_pos h1, if_pos h2]
      exact h1.trans h2.symm
    · by_cases hd2 : ((getPieceAt pieces toPos).any (fun t => p2.id == t.id)) = true
      · rw [if_neg h2, if_pos hd2] at hl2
        simp [pieceLive] at hl2
      · rw [if_neg h2, if_neg hd2] at hl2 hpos
        rw [if_pos h1] at hpos
        have hp2live : pieceLive p2 = true := hl2
        have hsome := getPieceAt_isSome_of pieces toPos p2 hp2 hp2live hpos.symm
        obtain ⟨t0, hg⟩ := Option.isSome_iff_exists.mp hsome
        obtain ⟨ht0mem, ht0live, ht0pos⟩ := getPieceAt_mem_live pieces toPos t0 hg
        have hid20 : p2.id = t0.id :=
          hu p2 hp2 t0 ht0mem hp2live ht0live (by rw [ht0pos]; exact hpos.symm)
        exact absurd (by rw [hg]; simp [Option.any, hid20]) hd2
  · by_cases h2 : p2.id = piece.id
    · by_cases hd1 : ((getPieceAt pieces toPos).any (fun t => p1.id == t.id)) = true
      · rw [if_neg h1, if_pos hd1] at hl1
        simp [pieceLive] at hl1
      · rw [if_neg h1, if_neg hd1] at hl1 hpos
        rw [if_pos h2] at hpos
        have hp1live : pieceLive p1 = true := hl1
        have hsome := getPieceAt_isSome_of pieces toPos p1 hp1 hp1live hpos
        obtain ⟨t0, hg⟩ := Option.isSome_iff_exists.mp hsome
        obtain ⟨ht0mem, ht0live, ht0pos⟩ := getPieceAt_mem_live pieces toPos t0 hg
        have hid10 : p1.id = t0.id :=
          hu p1 hp1 t0 ht0mem hp1live ht0live (by rw [ht0pos]; exact hpos)
        exact absurd (by rw [hg]; simp [Option.any, hid10]) hd1
    · by_cases hd1 : ((getPieceAt pieces toPos).any (fun t => p1.id == t.id)) = true
      · rw [if_neg h1, if_pos hd1] at hl1
        simp [pieceLive] at hl1
      · by_cases hd2 : ((getPieceAt pieces toPos).any (fun t => p2.id == t.id)) = true
        · rw [if_neg h2, if_pos hd2] at hl2
          simp [pieceLive] at hl2
        · rw [if_neg h1, if_neg hd1] at hl1 hpos ⊢
          rw [if_neg h2, if_neg hd2] at hl2 hpos ⊢
          exact hu p1 hp1 p2 hp2 hl1 hl2 hpos

/-- C5: at most one live piece per cell — two live entries sharing a position
carry the same id — holds for every freshly dealt board (together with
distinctness of the dealt ids) and is preserved by the flip update, the
move/capture update (with the capture target looked up as the source does),
and the deferred capture finalization. -/
theorem unique_occupancy_invariant :
    (∀ raw, uniqueOccupancy (generateNewGamePieces raw) ∧
        ((generateNewGamePieces raw).map (fun p => p.id)).Nodup) ∧
    (∀ pieces pid,
        (flipPieces pieces pid).map (fun p => p.id) = pieces.map (fun p => p.id) ∧
        (uniqueOccupancy pieces → uniqueOccupancy (flipPieces pieces pid))) ∧
    (∀ pieces piece toPos,
        (applyMovePieces pieces piece toPos (getPieceAt pieces toPos)).map
            (fun p => p.id) = pieces.map (fun p => p.id) ∧
        (uniqueOccupancy pieces →
          uniqueOccupancy (applyMovePieces pieces piece toPos (getPieceAt pieces toPos)))) ∧
    (∀ pieces tid,
        (finalizeDead pieces tid).map (fun p => p.id) = pieces.map (fun p => p.id) ∧
        (uniqueOccupancy pieces → uniqueOccupancy (finalizeDead pieces tid))) := by
  refine ⟨?_, ?_, ?_, ?_⟩
  · intro raw
    constructor
    · intro q1 hq1 q2 hq2 hl1 hl2 hpos
      rw [generateNewGamePieces] at hq1 hq2
      obtain ⟨e1, he1, rfl⟩ := List.mem_map.mp hq1
      obtain ⟨e2, he2, rfl⟩ := List.mem_map.mp hq2
      simp only [dealPiece] at hpos ⊢
      exact dealPosition_inj e1.1 e2.1 hpos
    · rw [generateNewGamePieces, List.map_map]
      have hfun : ((fun p : Piece => p.id) ∘ dealPiece) = Prod.fst := rfl
      rw [hfun, List.enum_map_fst]
      exact List.nodup_range _
  · intro pieces pid
    constructor
    · refine map_id_of_pointwise pieces _ (fun p => ?_)
      by_cases h : p.id = pid <;> simp [h]
    · refine uniqueOccupancy_map pieces _ (fun p => ?_) (fun p => ?_) (fun p => ?_)
      · by_cases h : p.id = pid <;> simp [h]
      · by_cases h : p.id = pid <;> simp [h]
      · by_cases h : p.id = pid <;> simp [pieceLive, h]
  · intro pieces piece toPos
    constructor
    · refine map_id_of_pointwise pieces _ (fun p => ?_)
      by_cases h1 : p.id = piece.id
      · simp [h1]
      · by_cases h2 : ((getPieceAt pieces toPos).any (fun t => p.id == t.id)) = true <;>
          simp [h1, h2]
    · exact applyMove_uniqueOccupancy pieces piece toPos
  · intro pieces tid
    constructor
    · refine map_id_of_pointwise pieces _ (fun p => ?_)
      by_cases h : p.id = tid <;> simp [h]
    · refine uniqueOccupancy_map pieces _ (fun p => ?_) (fun p => ?_) (fun p => ?_)
      · by_cases h : p.id = tid <;> simp [h]
      · by_cases h : p.id = tid <;> simp [h]
      · by_cases h : p.id = tid <;> simp [pieceLive, h]

/-- Number of pieces of a given color and type on a board. -/
def colorTypeCount (ps : List Piece) (c : PlayerColor) (t : PieceType) : Nat :=
  ps.countP (fun p => decide (p.color = c ∧ p.type = t))

theorem colorTypeCount_generate (raw : List RawPiece) (c : PlayerColor) (t : PieceType) :
    colorTypeCount (generateNewGamePieces raw) c t =
      raw.countP (fun rp => decide (rp.color = c ∧ rp.type = t)) := by
  rw [colorTypeCount, generateNewGamePieces, List.countP_map]
  have h : ((fun p : Piece => decide (p.color = c ∧ p.type = t)) ∘ dealPiece) =
      ((fun rp : RawPiece => decide (rp.color = c ∧ rp.type = t)) ∘ Prod.snd) := rfl
  rw [h, ← List.countP_map, List.enum_map_snd]

theorem countP_color_generate (raw : List RawPiece) (c : PlayerColor) :
    (generateNewGamePieces raw).countP (fun p => decide (p.color = c)) =
      raw.countP (fun rp => decide (rp.color = c)) := by
  rw [generateNewGamePieces, List.countP_map]
  have h : ((fun p : Piece => decide (p.color = c)) ∘ dealPiece) =
      ((fun rp : RawPiece => decide (rp.color = c)) ∘ Prod.snd) := rfl
  rw [h, ← List.countP_map, List.enum_map_snd]

/-- Full specification of a fresh deal: 32 pieces, 16 per color, the fixed
per-color type multiset {1 general, 2 advisors, 2 elephants, 2 chariots,
2 horses, 2 cannons, 5 soldiers}, every piece hidden and alive, exactly one
piece on each of the 32 cells (the dealt positions are exactly the 32
distinct board cells), and no seat-color assignment in the initial state. -/
def newGameDealSpec (raw : List RawPiece) : Prop :=
  (generateNewGamePieces raw).length = 32 ∧
  (generateNewGamePieces raw).countP (fun p => decide (p.color = PlayerColor.red)) = 16 ∧
  (generateNewGamePieces raw).countP (fun p => decide (p.color = PlayerColor.black)) = 16 ∧
  (∀ c : PlayerColor,
    colorTypeCount (generateNewGamePieces raw) c .general = 1 ∧
    colorTypeCount (generateNewGamePieces raw) c .advisor = 2 ∧
    colorTypeCount (generateNewGamePieces raw) c .elephant = 2 ∧
    colorTypeCount (generateNewGamePieces raw) c .chariot = 2 ∧
    colorTypeCount (generateNewGamePieces raw) c .horse = 2 ∧
    colorTypeCount (generateNewGamePieces raw) c .cannon = 2 ∧
    colorTypeCount (generateNewGamePieces raw) c .soldier = 5) ∧
  (∀ p ∈ generateNewGamePieces raw,
    p.revealed = false ∧ p.dead = false ∧ p.dying = false) ∧
  (generateNewGamePieces raw).map (fun p => p.position) = allBoardCells ∧
  allBoardCells.Nodup ∧
  (initGameState raw).color0 = none ∧ (initGameState raw).color1 = none

/-- C9: every shuffle outcome — any permutation `raw` of the fixed raw-piece
list — deals a board satisfying `newGameDealSpec`. -/
theorem generateNewGamePieces_spec (raw : List RawPiece)
    (hperm : raw.Perm baseRawPieces) : newGameDealSpec raw := by
  have hcount : ∀ g : RawPiece → Bool, raw.countP g = baseRawPieces.countP g :=
    fun g => hperm.countP_eq g
  have hlen : raw.length = 32 := hperm.length_eq.trans (by decide)
  refine ⟨?_, ?_, ?_, ?_, ?_, ?_, ?_, rfl, rfl⟩
  · rw [generateNewGamePieces, List.length_map, List.enum_length]
    exact hlen
  · rw [countP_color_generate, hcount]
    decide
  · rw [countP_color_generate, hcount]
    decide
  · intro c
    cases c <;> refine ⟨?_, ?_, ?_, ?_, ?_, ?_, ?_⟩ <;>
      (rw [colorTypeCount_generate, hcount]; decide)
  · intro p hp
    rw [generateNewGamePieces] at hp
    obtain ⟨e, he, rfl⟩ := List.mem_map.mp hp
    have hsnd : e.2 ∈ raw := by
      have h := List.mem_map_of_mem Prod.snd he
      rwa [List.enum_map_snd] at h
    have hbase : e.2 ∈ baseRawPieces := hperm.subset hsnd
    have hflags : ∀ rp ∈ baseRawPieces, rp.revealed = false ∧ rp.dead = false := by decide
    exact ⟨(hflags e.2 hbase).1, (hflags e.2 hbase).2, rfl⟩
  · rw [generateNewGamePieces, List.map_map]
    have h : ((fun p : Piece => p.position) ∘ dealPiece) = (dealPosition ∘ Prod.fst) := rfl
    rw [h, ← List.map_map, List.enum_map_fst, hlen]
    decide
  · decide

instance uniqueOccupancyDecidable (pieces : List Piece) :
    Decidable (uniqueOccupancy pieces) :=
  inferInstanceAs (Decidable (∀ p1 ∈ pieces, ∀ p2 ∈ pieces,
    pieceLive p1 = true → pieceLive p2 = true → p1.position = p2.position → p1.id = p2.id))

/-- Demo board: revealed red soldier, revealed black general (adjacent to
it), and a hidden black soldier in the far corner. -/
def demoRedSoldier : Piece := ⟨0, .soldier, .red, ⟨1, 3⟩, true, false, false, 1⟩

def demoBlackGeneral : Piece := ⟨1, .general, .black, ⟨1, 4⟩, true, false, false, 7⟩

def demoHiddenSoldier : Piece := ⟨2, .soldier, .black, ⟨3, 7⟩, false, false, false, 1⟩

def demoPieces : List Piece := [demoRedSoldier, demoBlackGeneral, demoHiddenSoldier]

def demoState : GameState :=
  { pieces := demoPieces, currentPlayerIndex := 0, color0 := some .red,
    color1 := some .black, selectedPieceId := none, lastMove := none, winner := none }

def demoSelState : GameState :=
  { pieces := demoPieces, currentPlayerIndex := 0, color0 := some .red,
    color1 := some .black, selectedPieceId := some 0, lastMove := none, winner := none }

def demoUnassignedState : GameState :=
  { pieces := demoPieces, currentPlayerIndex := 0, color0 := none,
    color1 := none, selectedPieceId := none, lastMove := none, winner := none }

def demoWinPieces : List Piece := [demoRedSoldier, demoBlackGeneral]

def demoWinState : GameState :=
  { pieces := demoWinPieces, currentPlayerIndex := 0, color0 := some .red,
    color1 := some .black, selectedPieceId := some 0, lastMove := none, winner := none }

/-- Demo cannon board: red cannon, one hidden screen two cells away, a
revealed black target two cells past the screen, and a revealed black piece
adjacent to the cannon. -/
def demoCannon : Piece := ⟨10, .cannon, .red, ⟨0, 0⟩, true, false, false, 2⟩

def demoScreen : Piece := ⟨11, .horse, .red, ⟨0, 2⟩, false, false, false, 3⟩

def demoCannonTarget : Piece := ⟨12, .chariot, .black, ⟨0, 4⟩, true, false, false, 4⟩

def demoCannonBoard : List Piece := [demoCannon, demoScreen, demoCannonTarget]

def demoAdjacentVictim : Piece := ⟨13, .soldier, .black, ⟨0, 1⟩, true, false, false, 1⟩

def demoCannonAdjBoard : List Piece := [demoCannon, demoAdjacentVictim]

/-- Witness for C1: the rank-override capture soldier-takes-general is
accepted on a concrete board. -/
theorem isValidMove_nonCannon_iff_witness :
    isValidMove demoPieces demoRedSoldier ⟨1, 4⟩ = true :=
  (isValidMove_nonCannon_iff demoPieces demoRedSoldier ⟨1, 4⟩ (by decide) (by decide)
      (by decide) (by decide) (by decide) (by decide) (by decide) (by decide)).mpr
    ⟨by decide, Or.inr ⟨demoBlackGeneral, by decide, by decide, by decide,
      Or.inl (by decide)⟩⟩

/-- Witness for C2: a cannon capture over exactly one screen is accepted on a
concrete board. -/
theorem isValidMove_cannon_iff_witness :
    isValidMove demoCannonBoard demoCannon ⟨0, 4⟩ = true :=
  (isValidMove_cannon_iff demoCannonBoard demoCannon ⟨0, 4⟩ (by decide) (by decide)
      (by decide) (by decide) (by decide) (by decide) (by decide)).mpr
    (Or.inr ⟨demoCannonTarget, by decide, by decide, by decide, Or.inl (by decide),
      by decide⟩)

/-- Witness for C4: capturing the last black piece declares seat 0 the winner
without passing the turn. -/
theorem performBoardUpdate_elimination_win_witness :
    (performBoardUpdate demoWinState demoRedSoldier ⟨1, 4⟩
        (getPieceAt demoWinState.pieces ⟨1, 4⟩)).winner = some 0 ∧
      (performBoardUpdate demoWinState demoRedSoldier ⟨1, 4⟩
        (getPieceAt demoWinState.pieces ⟨1, 4⟩)).currentPlayerIndex = 0 :=
  performBoardUpdate_elimination_win demoWinState demoRedSoldier ⟨1, 4⟩
    (getPieceAt demoWinState.pieces ⟨1, 4⟩) .black (by decide) (by decide)

/-- Witness for C5: the move/capture update preserves unique occupancy on a
concrete board. -/
theorem unique_occupancy_invariant_witness :
    uniqueOccupancy (applyMovePieces demoPieces demoRedSoldier ⟨1, 4⟩
      (getPieceAt demoPieces ⟨1, 4⟩)) :=
  (unique_occupancy_invariant.2.2.1 demoPieces demoRedSoldier ⟨1, 4⟩).2 (by decide)

/-- Witness for C6: clicking the hidden soldier's cell flips exactly that
piece on a concrete state. -/
theorem flip_legal_iff_and_frame_witness :
    (handleSquareClick demoState ⟨3, 7⟩).pieces = flipPieces demoState.pieces 2 ∧
      List.Forall₂ (flipFrame 2) demoState.pieces (flipPieces demoState.pieces 2) :=
  flip_legal_iff_and_frame.1 demoState ⟨3, 7⟩ demoHiddenSoldier rfl (by decide) rfl

/-- Witness for C7: the game's first flip of a black piece gives seat 0 black
and seat 1 red on a concrete state. -/
theorem seat_color_assignment_witness :
    (handleFlip demoUnassignedState demoHiddenSoldier).color0 = some PlayerColor.black ∧
      (handleFlip demoUnassignedState demoHiddenSoldier).color1 = some PlayerColor.red :=
  seat_color_assignment.2.1 demoUnassignedState demoHiddenSoldier rfl

/-- Witness for C8: an invalid move attempt onto an empty cell only clears
the selection on a concrete state. -/
theorem rejection_preserves_state_witness :
    (handleSquareClick demoSelState ⟨3, 0⟩).pieces = demoSelState.pieces ∧
      (handleSquareClick demoSelState ⟨3, 0⟩).currentPlayerIndex =
        demoSelState.currentPlayerIndex ∧
      (handleSquareClick demoSelState ⟨3, 0⟩).color0 = demoSelState.color0 ∧
      (handleSquareClick demoSelState ⟨3, 0⟩).color1 = demoSelState.color1 ∧
      (handleSquareClick demoSelState ⟨3, 0⟩).winner = demoSelState.winner :=
  rejection_preserves_state.1 demoSelState ⟨3, 0⟩ 0 demoRedSoldier rfl (by decide) rfl
    (by decide) (by decide)

/-- Witness for C9: the identity shuffle deals a conforming board. -/
theorem generateNewGamePieces_spec_witness : newGameDealSpec baseRawPieces :=
  generateNewGamePieces_spec baseRawPieces (List.Perm.refl _)

/-- Witness for C10: the cannon cannot take the black piece standing right
next to it on a concrete board. -/
theorem cannon_cannot_capture_adjacent_witness :
    isValidMove demoCannonAdjBoard demoCannon ⟨0, 1⟩ = false :=
  cannon_cannot_capture_adjacent demoCannonAdjBoard demoCannon ⟨0, 1⟩ (by decide)
    (by decide) (by decide) (by decide) (by decide)
